import Mathlib

/-!
Verification of the glitch-studio effects pipeline (src/src/App.jsx).

The JavaScript source operates on an RGBA `Uint8ClampedArray`; per-stage
arithmetic is done in (double-precision) real arithmetic, which we shallowly
embed as exact rational arithmetic (`ℚ`).  A pixel is a record of four
rational channels.  Each stage of the pipeline is translated directly from
the corresponding branch of the `pipelineOrder.forEach` loop; representation
per stage follows the access pattern of the source (flat raster index,
per-row lists, or `(x, y)` coordinates), all equivalent to the source's
`data[(y*w+x)*4 + c]` addressing.
-/

namespace GlitchStudio

/-- A single RGBA pixel; channels embedded as rationals (the source holds
8-bit channel values and computes on them with real arithmetic). -/
structure Pixel where
  r : ℚ
  g : ℚ
  b : ℚ
  a : ℚ
deriving DecidableEq

instance : Inhabited Pixel := ⟨⟨0, 0, 0, 0⟩⟩

/-- `getLuminance` from App.jsx line 19: `0.2126*r + 0.7152*g + 0.0722*b`. -/
def getLuminance (r g b : ℚ) : ℚ :=
  2126 / 10000 * r + 7152 / 10000 * g + 722 / 10000 * b

/-- Luminance of a pixel record, as used pervasively by the stages. -/
def lumP (p : Pixel) : ℚ := getLuminance p.r p.g p.b

/-- A parsed `{r, g, b}` color record as returned by `hexToRgb`. -/
structure Rgb where
  r : ℕ
  g : ℕ
  b : ℕ
deriving DecidableEq

/-- Value of one hex digit, case-insensitive, matching the character class
`[a-f\d]` of the `hexToRgb` regular expression. -/
def hexDigitVal (c : Char) : Option ℕ :=
  if '0' ≤ c ∧ c ≤ '9' then some (c.toNat - 48)
  else if 'a' ≤ c ∧ c ≤ 'f' then some (c.toNat - 87)
  else if 'A' ≤ c ∧ c ≤ 'F' then some (c.toNat - 55)
  else none

/-- `hexToRgb` from App.jsx lines 9–16: an optional `#` followed by exactly
six hex digits parses to a channel record; anything else yields no value
(the source returns `null`). -/
def hexToRgb (s : String) : Option Rgb :=
  let cs := if s.data.head? = some '#' then s.data.tail else s.data
  match cs with
  | [c1, c2, c3, c4, c5, c6] => do
    let h1 ← hexDigitVal c1
    let h2 ← hexDigitVal c2
    let h3 ← hexDigitVal c3
    let h4 ← hexDigitVal c4
    let h5 ← hexDigitVal c5
    let h6 ← hexDigitVal c6
    pure ⟨h1 * 16 + h2, h3 * 16 + h4, h5 * 16 + h6⟩
  | _ => none

/-- `bayerMatrix4x4` from App.jsx lines 22–27. -/
def bayerMatrix4x4 : List (List ℕ) :=
  [[0, 8, 2, 10],
   [12, 4, 14, 6],
   [3, 11, 1, 9],
   [15, 7, 13, 5]]

/-- The source's `bayerMatrix4x4[row][col]` lookup. -/
def bayerAt (row col : ℕ) : ℕ :=
  (bayerMatrix4x4.getD row []).getD col 0

/-- `vibrantColors` from App.jsx lines 30–37. -/
def vibrantColors : List Rgb :=
  [⟨255, 0, 100⟩, ⟨0, 255, 200⟩, ⟨255, 200, 0⟩,
   ⟨100, 100, 255⟩, ⟨50, 255, 50⟩, ⟨255, 100, 0⟩]

/-! ### Pipeline orchestration (App.jsx lines 115–123, 207–221) -/

/-- `pipelineOrder` from App.jsx lines 207–217: the fixed canonical stage
order. -/
def pipelineOrder : List String :=
  ["pixel", "bw", "sort", "outline", "edge", "halftone", "dither",
   "chromatic", "crt"]

/-- `toggleMode` from App.jsx lines 115–123: removing the mode if present,
appending it otherwise. -/
def toggleMode (modeId : String) (prev : List String) : List String :=
  if modeId ∈ prev then prev.filter (fun m => m ≠ modeId) else prev ++ [modeId]

/-- The `activeModes` list resulting from a sequence of caller toggle
clicks, starting from a given initial list. -/
def applyToggles (ts : List String) (init : List String) : List String :=
  ts.foldl (fun l m => toggleMode m l) init

/-- The stages the orchestrator executes: `pipelineOrder` filtered by
membership in `activeModes` (the `if (!activeModes.includes(mode)) return`
guard of the forEach at lines 220–221). -/
def executedStages (activeModes : List String) : List String :=
  pipelineOrder.filter (fun m => decide (m ∈ activeModes))

/-- The orchestrator's buffer loop: fold the stage transforms over
`pipelineOrder`, skipping stages not in `activeModes`. -/
def runPipeline {B : Type} (step : String → B → B) (activeModes : List String)
    (buf : B) : B :=
  pipelineOrder.foldl (fun b m => if m ∈ activeModes then step m b else b) buf

lemma runPipeline_eq_fold_executed {B : Type} (step : String → B → B)
    (active : List String) (buf : B) :
    runPipeline step active buf =
      (executedStages active).foldl (fun b m => step m b) buf := by
  unfold runPipeline executedStages
  generalize pipelineOrder = l
  induction l generalizing buf with
  | nil => rfl
  | cons m l ih =>
    by_cases hm : m ∈ active
    · simp only [List.foldl_cons, List.filter_cons]
      rw [if_pos hm, if_pos (by simpa using hm)]
      exact ih (step m buf)
    · simp only [List.foldl_cons, List.filter_cons]
      rw [if_neg hm, if_neg (by simpa using hm)]
      exact ih buf

lemma executedStages_congr {l₁ l₂ : List String}
    (h : ∀ m, m ∈ l₁ ↔ m ∈ l₂) :
    executedStages l₁ = executedStages l₂ := by
  unfold executedStages
  refine List.filter_congr ?_
  intro m _
  simpa using h m

/-- C1. For every ActiveStageSet and every order in which the caller
enabled/disabled stages, the orchestrator executes exactly the enabled
stages, in the fixed canonical order pixelate (`pixel`), tone (`bw`),
pixel-sort (`sort`), outline, edge-detect (`edge`), halftone, dither,
chromatic, crt, restricted to the set; stages not in the set are skipped
entirely (they leave the buffer untouched). -/
theorem stage_order_invariant_C1 {B : Type} (step : String → B → B)
    (buf : B) (ts₁ ts₂ init₁ init₂ : List String)
    (hmem : ∀ m, m ∈ applyToggles ts₁ init₁ ↔ m ∈ applyToggles ts₂ init₂) :
    runPipeline step (applyToggles ts₁ init₁) buf =
        (executedStages (applyToggles ts₁ init₁)).foldl (fun b m => step m b) buf
      ∧ executedStages (applyToggles ts₁ init₁) =
          executedStages (applyToggles ts₂ init₂)
      ∧ (executedStages (applyToggles ts₁ init₁)).Sublist pipelineOrder
      ∧ ∀ m, m ∈ executedStages (applyToggles ts₁ init₁) ↔
          (m ∈ pipelineOrder ∧ m ∈ applyToggles ts₁ init₁) := by
  refine ⟨runPipeline_eq_fold_executed step _ buf, executedStages_congr hmem,
    List.filter_sublist _, ?_⟩
  intro m
  unfold executedStages
  simp [List.mem_filter]

/-- Witness for C1: two different toggle histories producing the same
membership ({pixel, crt}) yield the same executed stage list, a sublist of
the canonical order. -/
theorem stage_order_invariant_C1_witness :
    runPipeline (fun m l => l ++ [m]) (applyToggles ["crt", "pixel"] []) [] =
        (executedStages (applyToggles ["crt", "pixel"] [])).foldl
          (fun b m => b ++ [m]) []
      ∧ executedStages (applyToggles ["crt", "pixel"] []) =
          executedStages (applyToggles ["pixel", "crt", "dither", "dither"] [])
      ∧ (executedStages (applyToggles ["crt", "pixel"] [])).Sublist pipelineOrder
      ∧ ∀ m, m ∈ executedStages (applyToggles ["crt", "pixel"] []) ↔
          (m ∈ pipelineOrder ∧ m ∈ applyToggles ["crt", "pixel"] []) := by
  refine stage_order_invariant_C1 (fun m l => l ++ [m]) []
    ["crt", "pixel"] ["pixel", "crt", "dither", "dither"] [] [] ?_
  have h1 : applyToggles ["crt", "pixel"] [] = ["crt", "pixel"] := by decide
  have h2 : applyToggles ["pixel", "crt", "dither", "dither"] [] =
      ["pixel", "crt"] := by decide
  intro m
  rw [h1, h2]
  simp only [List.mem_cons, List.not_mem_nil, or_false]
  tauto

/-! ### Dither stage (App.jsx lines 445–501) -/

/-- The `ditherAlgo` setting: `bayer`, `threshold`, `floyd`, or the
fall-through Atkinson branch. -/
inductive DitherAlgo
  | bayer
  | threshold
  | floyd
  | atkinson
deriving DecidableEq

/-- The `ditherType` setting. -/
inductive DitherType
  | bw
  | duotone
  | random
deriving DecidableEq

/-- The source's Bayer quantization `Math.floor((gray / 255) * 17)`
(App.jsx line 460). -/
def bayerQuant (v : ℚ) : ℤ := ⌊v / 255 * 17⌋

/-- Add `v` to buffer cell `j` (`grayBuffer[j] += v` on a `Float32Array`
viewed as a mapping from raster index to value). -/
def bufAdd (g : ℕ → ℚ) (j : ℕ) (v : ℚ) : ℕ → ℚ :=
  fun k => if k = j then g k + v else g k

/-- Floyd–Steinberg error diffusion (App.jsx lines 472–476): the error is
spread right (7/16), below-left (3/16), below (5/16) and below-right (1/16),
each write guarded by the bounds checks of the source. `i = y*w + x`. -/
def floydDiffuse (w h x y : ℕ) (err : ℚ) (g : ℕ → ℚ) : ℕ → ℚ :=
  let i := y * w + x
  let g1 := if x + 1 < w then bufAdd g (i + 1) (err * 7 / 16) else g
  let g2 := if y + 1 < h ∧ 1 ≤ x then bufAdd g1 (i + w - 1) (err * 3 / 16) else g1
  let g3 := if y + 1 < h then bufAdd g2 (i + w) (err * 5 / 16) else g2
  if y + 1 < h ∧ x + 1 < w then bufAdd g3 (i + w + 1) (err * 1 / 16) else g3

/-- Atkinson error diffusion (App.jsx lines 477–485): six neighbors (one
right, two right, below-left, below, below-right, two below) each get 1/8 of
the error, guarded by the bounds checks of the source. -/
def atkinsonDiffuse (w h x y : ℕ) (err : ℚ) (g : ℕ → ℚ) : ℕ → ℚ :=
  let i := y * w + x
  let f : ℚ := 1 / 8
  let g1 := if x + 1 < w then bufAdd g (i + 1) (err * f) else g
  let g2 := if x + 2 < w then bufAdd g1 (i + 2) (err * f) else g1
  let g3 := if 1 ≤ x ∧ y + 1 < h then bufAdd g2 (i + w - 1) (err * f) else g2
  let g4 := if y + 1 < h then bufAdd g3 (i + w) (err * f) else g3
  let g5 := if x + 1 < w ∧ y + 1 < h then bufAdd g4 (i + w + 1) (err * f) else g4
  if y + 2 < h then bufAdd g5 (i + w * 2) (err * f) else g5

/-- One iteration of the dither double loop at raster index `i` (App.jsx
lines 457–486): decides `isLight` and, for the diffusion algorithms,
updates the shared luminance buffer. -/
def ditherStep (algo : DitherAlgo) (threshold : ℚ) (w h : ℕ) (i : ℕ)
    (g : ℕ → ℚ) : Bool × (ℕ → ℚ) :=
  match algo with
  | .bayer =>
    (decide ((bayerAt (i / w % 4) (i % w % 4) : ℤ) < bayerQuant (g i)), g)
  | .threshold => (decide (threshold < g i), g)
  | .floyd =>
    let oldVal := g i
    let newVal : ℚ := if threshold < oldVal then 255 else 0
    (decide (newVal = 255), floydDiffuse w h (i % w) (i / w) (oldVal - newVal) g)
  | .atkinson =>
    let oldVal := g i
    let newVal : ℚ := if threshold < oldVal then 255 else 0
    (decide (newVal = 255), atkinsonDiffuse w h (i % w) (i / w) (oldVal - newVal) g)

/-- Raster-order scan of the dither loop over a list of indices, threading
the shared luminance buffer and recording each pixel's `isLight` bit. -/
def ditherScan (algo : DitherAlgo) (threshold : ℚ) (w h : ℕ) :
    List ℕ → (ℕ → ℚ) → ((ℕ → ℚ) × (ℕ → Bool))
  | [], g => (g, fun _ => false)
  | i :: rest, g =>
    let s := ditherStep algo threshold w h i g
    let r := ditherScan algo threshold w h rest s.2
    (r.1, fun j => if j = i then s.1 else r.2 j)

/-- The `isLight` bit of every pixel after the full raster scan, the
luminance buffer initialized from the input pixels (App.jsx lines 446–449). -/
def ditherLit (algo : DitherAlgo) (threshold : ℚ) (w h : ℕ)
    (src : ℕ → Pixel) : ℕ → Bool :=
  (ditherScan algo threshold w h (List.range (w * h)) (fun i => lumP (src i))).2

/-- The dither stage (App.jsx lines 445–501).  `hash` stands for the
source's fixed trigonometric coordinate hash of the `random` palette
(line 490), irrelevant to the claims below.  Output is `none` when some
pixel dereferences a channel of a color that failed to parse (the source
would throw on `null.r`); otherwise the full output image. -/
def ditherStage (algo : DitherAlgo) (threshold : ℚ) (dtype : DitherType)
    (colorA colorB : String) (hash : ℕ → ℕ → ℕ) (w h : ℕ)
    (src : ℕ → Pixel) : Option (ℕ → Pixel) :=
  let dark := hexToRgb colorA
  let light := hexToRgb colorB
  let lit := ditherLit algo threshold w h src
  let pix : ℕ → Option Pixel := fun i =>
    match dtype with
    | .bw => some (if lit i then ⟨255, 255, 255, 255⟩ else ⟨0, 0, 0, 255⟩)
    | .duotone =>
      (if lit i then light else dark).map fun c => ⟨c.r, c.g, c.b, 255⟩
    | .random =>
      if lit i then
        let col := vibrantColors.getD (hash (i % w) (i / w) % vibrantColors.length)
          ⟨0, 0, 0⟩
        some ⟨col.r, col.g, col.b, 255⟩
      else (if lit i then light else dark).map fun c => ⟨c.r, c.g, c.b, 255⟩
  if (List.range (w * h)).all (fun i => (pix i).isSome) then
    some (fun i => (pix i).getD default)
  else none

lemma ditherScan_pure (algo : DitherAlgo) (threshold : ℚ) (w h : ℕ)
    (hpure : algo = .bayer ∨ algo = .threshold) (l : List ℕ) (g : ℕ → ℚ) :
    (ditherScan algo threshold w h l g).1 = g ∧
      ∀ j, (ditherScan algo threshold w h l g).2 j =
        if j ∈ l then (ditherStep algo threshold w h j g).1 else false := by
  have hstep : ∀ i g', (ditherStep algo threshold w h i g').2 = g' := by
    intro i g'
    rcases hpure with h' | h' <;> subst h' <;> rfl
  induction l with
  | nil => exact ⟨rfl, fun j => by simp [ditherScan]⟩
  | cons i rest ih =>
    rcases ih with ⟨ih1, ih2⟩
    constructor
    · show (ditherScan algo threshold w h rest
          (ditherStep algo threshold w h i g).2).1 = g
      rw [hstep]; exact ih1
    · intro j
      show (if j = i then (ditherStep algo threshold w h i g).1
          else (ditherScan algo threshold w h rest
            (ditherStep algo threshold w h i g).2).2 j) = _
      rw [hstep]
      by_cases hj : j = i
      · subst hj; simp
      · rw [if_neg hj, ih2 j]
        simp [List.mem_cons, hj]

/-- C2. For the Dither stage with the flat-threshold algorithm and `bw`
palette mode, every output pixel is pure white (255,255,255,255) if its
input luminance strictly exceeds `ditherThreshold` and pure black
(0,0,0,255) otherwise, independent of pixel position. -/
theorem dither_flat_threshold_C2 (threshold : ℚ) (colorA colorB : String)
    (hash : ℕ → ℕ → ℕ) (w h : ℕ) (src : ℕ → Pixel) (i : ℕ)
    (hi : i < w * h) :
    ∃ out, ditherStage .threshold threshold .bw colorA colorB hash w h src
        = some out ∧
      out i = if threshold < lumP (src i)
        then (⟨255, 255, 255, 255⟩ : Pixel) else ⟨0, 0, 0, 255⟩ := by
  have hlit : ditherLit .threshold threshold w h src i =
      decide (threshold < lumP (src i)) := by
    have := (ditherScan_pure .threshold threshold w h (Or.inr rfl)
      (List.range (w * h)) (fun j => lumP (src j))).2 i
    unfold ditherLit
    rw [this, if_pos (List.mem_range.mpr hi)]
    rfl
  refine ⟨fun j => if ditherLit .threshold threshold w h src j
      then ⟨255, 255, 255, 255⟩ else ⟨0, 0, 0, 255⟩, ?_, ?_⟩
  · unfold ditherStage
    rw [if_pos]
    · exact congrArg some (funext fun j => rfl)
    · simp [List.all_eq_true]
  · show (if ditherLit .threshold threshold w h src i = true then _ else _) = _
    rw [hlit]
    by_cases hl : threshold < lumP (src i) <;> simp [hl]

/-- Witness for C2: the spec's end-to-end scenario — a 4×4 all-(128,128,128)
image, only the dither stage active, flat threshold 127, bw palette — gives
pure white at every pixel (two sample positions shown via the theorem,
then all 16 positions by evaluation). -/
theorem dither_flat_threshold_C2_witness :
    (∃ out, ditherStage .threshold 127 .bw "000000" "ffffff" (fun _ _ => 0)
        4 4 (fun _ => ⟨128, 128, 128, 255⟩) = some out ∧
      out 0 = if (127:ℚ) < lumP ⟨128, 128, 128, 255⟩
        then (⟨255, 255, 255, 255⟩ : Pixel) else ⟨0, 0, 0, 255⟩) ∧
      (∀ i < 16, (127:ℚ) < lumP ((fun _ => (⟨128, 128, 128, 255⟩ : Pixel)) i)) := by
  constructor
  · exact dither_flat_threshold_C2 127 "000000" "ffffff" (fun _ _ => 0)
      4 4 (fun _ => ⟨128, 128, 128, 255⟩) 0 (by norm_num)
  · intro i _
    show (127:ℚ) < lumP ⟨128, 128, 128, 255⟩
    unfold lumP getLuminance
    norm_num

/-- C7 counterexample. The claim says the Bayer branch quantizes luminance
to a 0–16 scale, but the source's `Math.floor((gray / 255) * 17)` reaches 17
at a pure-white pixel (luminance exactly 255), which is outside 0–16. -/
theorem dither_bayer_C7_counterexample :
    bayerQuant (lumP ⟨255, 255, 255, 255⟩) = 17 ∧
      ¬ bayerQuant (lumP ⟨255, 255, 255, 255⟩) ≤ 16 := by
  have h : lumP ⟨255, 255, 255, 255⟩ = 255 := by
    unfold lumP getLuminance; norm_num
  rw [h]
  have h17 : bayerQuant 255 = 17 := by
    unfold bayerQuant
    norm_num
  rw [h17]
  omega

/-- C7 (amended). For Dither with the ordered (Bayer 4×4) algorithm, each
pixel's luminance is quantized by `⌊lum/255·17⌋`, which lies in 0–17 for
8-bit luminances (17 attained only at luminance exactly 255), and the pixel
is lit if and only if the quantized value strictly exceeds the Bayer matrix
entry at row (y mod 4), column (x mod 4). -/
theorem dither_bayer_C7 (threshold : ℚ) (w h : ℕ) (src : ℕ → Pixel)
    (i : ℕ) (hi : i < w * h) (hlo : 0 ≤ lumP (src i))
    (hhi : lumP (src i) ≤ 255) :
    ditherLit .bayer threshold w h src i =
        decide ((bayerAt (i / w % 4) (i % w % 4) : ℤ)
          < bayerQuant (lumP (src i)))
      ∧ 0 ≤ bayerQuant (lumP (src i))
      ∧ bayerQuant (lumP (src i)) ≤ 17 := by
  refine ⟨?_, ?_, ?_⟩
  · have := (ditherScan_pure .bayer threshold w h (Or.inl rfl)
      (List.range (w * h)) (fun j => lumP (src j))).2 i
    unfold ditherLit
    rw [this, if_pos (List.mem_range.mpr hi)]
    rfl
  · unfold bayerQuant
    rw [Int.le_floor]
    push_cast
    positivity
  · unfold bayerQuant
    have : lumP (src i) / 255 * 17 ≤ (17 : ℚ) := by
      rw [div_mul_eq_mul_div, div_le_iff₀ (by norm_num : (0:ℚ) < 255)]
      linarith
    calc ⌊lumP (src i) / 255 * 17⌋ ≤ ⌊(17 : ℚ)⌋ := Int.floor_le_floor this
      _ = 17 := by norm_num

/-- Witness for C7: a 1×1 image whose pixel has luminance 100; the lit test
compares quantized value 6 against matrix entry 0. -/
theorem dither_bayer_C7_witness :
    ditherLit .bayer 128 1 1 (fun _ => ⟨100, 100, 100, 255⟩) 0 =
        decide ((bayerAt (0 / 1 % 4) (0 % 1 % 4) : ℤ)
          < bayerQuant (lumP ((fun _ => (⟨100, 100, 100, 255⟩ : Pixel)) 0)))
      ∧ 0 ≤ bayerQuant (lumP ((fun _ => (⟨100, 100, 100, 255⟩ : Pixel)) 0))
      ∧ bayerQuant (lumP ((fun _ => (⟨100, 100, 100, 255⟩ : Pixel)) 0)) ≤ 17 := by
  refine dither_bayer_C7 128 1 1 (fun _ => ⟨100, 100, 100, 255⟩) 0
    (by norm_num) ?_ ?_
  · unfold lumP getLuminance
    norm_num
  · unfold lumP getLuminance
    norm_num

/-- C5 counterexample. A 1×1 black image, dither in duotone mode with
unparseable colors: the claim says the stage is skipped with the buffer
unchanged, but the reference dereferences the failed parse (`t.r` on
`null`), so the stage aborts and produces no buffer at all. -/
theorem dither_badcolor_C5_counterexample :
    ditherStage .threshold 128 .duotone "zz0000" "yyffff" (fun _ _ => 0) 1 1
      (fun _ => ⟨0, 0, 0, 255⟩) = none := by
  unfold ditherStage
  rw [show hexToRgb "zz0000" = none from by decide,
    show hexToRgb "yyffff" = none from by decide, if_neg]
  intro hall
  rw [List.all_eq_true] at hall
  have h0 := hall 0 (by norm_num)
  simp only [ite_self, Option.map_none', Option.isSome_none] at h0
  exact Bool.false_ne_true h0

/-- C5 (amended). For the dither stage in duotone mode, if the caller's hex
colors fail to parse, the stage does not skip itself leaving the buffer
unchanged: modelling the reference's `null` channel dereference, it aborts
and yields no output buffer (and no diagnostic-and-skip policy exists). -/
theorem dither_badcolor_C5 (algo : DitherAlgo) (threshold : ℚ)
    (colorA colorB : String) (hash : ℕ → ℕ → ℕ) (w h : ℕ) (src : ℕ → Pixel)
    (hA : hexToRgb colorA = none) (hB : hexToRgb colorB = none)
    (hwh : 0 < w * h) :
    ditherStage algo threshold .duotone colorA colorB hash w h src = none := by
  unfold ditherStage
  rw [hA, hB, if_neg]
  intro hall
  rw [List.all_eq_true] at hall
  have h0 := hall 0 (by simpa using List.mem_range.mpr hwh)
  simp only [ite_self, Option.map_none', Option.isSome_none] at h0
  exact Bool.false_ne_true h0

/-- Witness for C5: concrete unparseable colors on a 2×2 image. -/
theorem dither_badcolor_C5_witness :
    ditherStage .floyd 99 .duotone "oops!!" "nothex" (fun _ _ => 0) 2 2
      (fun _ => ⟨9, 9, 9, 9⟩) = none :=
  dither_badcolor_C5 .floyd 99 "oops!!" "nothex" (fun _ _ => 0) 2 2
    (fun _ => ⟨9, 9, 9, 9⟩) (by decide) (by decide) (by norm_num)

lemma raster_lt (w h x y : ℕ) (hx : x < w) (hy : y < h) : y * w + x < w * h := by
  have h1 : (y + 1) * w = y * w + w := by ring
  have h2 : (y + 1) * w ≤ h * w := Nat.mul_le_mul_right w hy
  have h3 : h * w = w * h := Nat.mul_comm h w
  omega

lemma floyd_pointwise (w h x y : ℕ) (e : ℚ) (g : ℕ → ℚ)
    (hx : 1 ≤ x) (hxw : x + 1 < w) (hyh : y + 1 < h) (j : ℕ) :
    floydDiffuse w h x y e g j =
      g j + ((if j = y * w + x + 1 then e * 7 / 16 else 0)
        + (if j = y * w + x + w - 1 then e * 3 / 16 else 0)
        + (if j = y * w + x + w then e * 5 / 16 else 0)
        + (if j = y * w + x + w + 1 then e * 1 / 16 else 0)) := by
  simp only [floydDiffuse]
  rw [if_pos ⟨hyh, hxw⟩, if_pos hyh, if_pos ⟨hyh, hx⟩, if_pos hxw]
  simp only [bufAdd]
  split_ifs <;> first | ring1 | omega | (exfalso; omega)

lemma atkinson_pointwise (w h x y : ℕ) (e : ℚ) (g : ℕ → ℚ)
    (hx : 1 ≤ x) (hxw : x + 2 < w) (hyh : y + 2 < h) (j : ℕ) :
    atkinsonDiffuse w h x y e g j =
      g j + ((if j = y * w + x + 1 then e * (1 / 8) else 0)
        + (if j = y * w + x + 2 then e * (1 / 8) else 0)
        + (if j = y * w + x + w - 1 then e * (1 / 8) else 0)
        + (if j = y * w + x + w then e * (1 / 8) else 0)
        + (if j = y * w + x + w + 1 then e * (1 / 8) else 0)
        + (if j = y * w + x + w * 2 then e * (1 / 8) else 0)) := by
  have hxw1 : x + 1 < w := by omega
  have hyh1 : y + 1 < h := by omega
  simp only [atkinsonDiffuse]
  rw [if_pos hyh, if_pos ⟨hxw1, hyh1⟩, if_pos hyh1, if_pos ⟨hx, hyh1⟩,
    if_pos hxw, if_pos hxw1]
  simp only [bufAdd]
  split_ifs <;> first | ring1 | omega | (exfalso; omega)

lemma sum_indicator (n k : ℕ) (c : ℚ) (hk : k < n) :
    (∑ j ∈ Finset.range n, if j = k then c else 0) = c := by
  rw [Finset.sum_ite_eq' (Finset.range n) k (fun _ => c)]
  rw [if_pos (Finset.mem_range.mpr hk)]

/-- C3. In error-diffusion dithering, each pixel is quantized to 0 or 255
against `ditherThreshold` (its `isLight` bit set iff luminance exceeds the
threshold) and its error is propagated into the shared luminance buffer
with exactly these weights, suppressed for out-of-buffer neighbors:
Floyd–Steinberg gives right 7/16, below-left 3/16, below 5/16, below-right
1/16 (propagated weights summing to the full error); Atkinson gives exactly
six neighbors — right, two-right, below-left, below, below-right, two-below
— each 1/8, so the propagated weights sum to 3/4 of the error and 2/8 is
discarded. -/
theorem dither_error_diffusion_C3 (w h x y : ℕ) (e : ℚ) (g : ℕ → ℚ)
    (hx : 1 ≤ x) (hxw : x + 2 < w) (hyh : y + 2 < h) :
    (∀ th : ℚ, ditherStep .floyd th w h (y * w + x) g =
        (decide (th < g (y * w + x)),
         floydDiffuse w h x y
           (g (y * w + x) - if th < g (y * w + x) then 255 else 0) g))
    ∧ (∀ th : ℚ, ditherStep .atkinson th w h (y * w + x) g =
        (decide (th < g (y * w + x)),
         atkinsonDiffuse w h x y
           (g (y * w + x) - if th < g (y * w + x) then 255 else 0) g))
    ∧ floydDiffuse w h x y e g (y * w + x + 1) = g (y * w + x + 1) + e * 7 / 16
    ∧ floydDiffuse w h x y e g (y * w + x + w - 1)
        = g (y * w + x + w - 1) + e * 3 / 16
    ∧ floydDiffuse w h x y e g (y * w + x + w) = g (y * w + x + w) + e * 5 / 16
    ∧ floydDiffuse w h x y e g (y * w + x + w + 1)
        = g (y * w + x + w + 1) + e * 1 / 16
    ∧ (∀ j, j ≠ y * w + x + 1 → j ≠ y * w + x + w - 1 → j ≠ y * w + x + w →
        j ≠ y * w + x + w + 1 → floydDiffuse w h x y e g j = g j)
    ∧ (∑ j ∈ Finset.range (w * h), (floydDiffuse w h x y e g j - g j)) = e
    ∧ atkinsonDiffuse w h x y e g (y * w + x + 1)
        = g (y * w + x + 1) + e * (1 / 8)
    ∧ atkinsonDiffuse w h x y e g (y * w + x + 2)
        = g (y * w + x + 2) + e * (1 / 8)
    ∧ atkinsonDiffuse w h x y e g (y * w + x + w - 1)
        = g (y * w + x + w - 1) + e * (1 / 8)
    ∧ atkinsonDiffuse w h x y e g (y * w + x + w)
        = g (y * w + x + w) + e * (1 / 8)
    ∧ atkinsonDiffuse w h x y e g (y * w + x + w + 1)
        = g (y * w + x + w + 1) + e * (1 / 8)
    ∧ atkinsonDiffuse w h x y e g (y * w + x + w * 2)
        = g (y * w + x + w * 2) + e * (1 / 8)
    ∧ (∀ j, j ≠ y * w + x + 1 → j ≠ y * w + x + 2 → j ≠ y * w + x + w - 1 →
        j ≠ y * w + x + w → j ≠ y * w + x + w + 1 → j ≠ y * w + x + w * 2 →
        atkinsonDiffuse w h x y e g j = g j)
    ∧ (∑ j ∈ Finset.range (w * h), (atkinsonDiffuse w h x y e g j - g j))
        = 3 / 4 * e
    ∧ (∀ x' y', w ≤ x' + 1 → h ≤ y' + 1 →
        floydDiffuse w h x' y' e g = g ∧ atkinsonDiffuse w h x' y' e g = g) := by
  have hxw1 : x + 1 < w := by omega
  have hyh1 : y + 1 < h := by omega
  have hw : 0 < w := by omega
  have hfp := floyd_pointwise w h x y e g hx hxw1 hyh1
  have hap := atkinson_pointwise w h x y e g hx hxw hyh
  have hmod : (y * w + x) % w = x := by
    rw [Nat.mul_comm y w, Nat.mul_add_mod]
    exact Nat.mod_eq_of_lt (by omega)
  have hdiv : (y * w + x) / w = y := by
    rw [Nat.mul_comm y w, Nat.mul_add_div hw]
    rw [Nat.div_eq_of_lt (by omega)]
    omega
  have hq : ∀ th : ℚ, decide ((if th < g (y * w + x) then (255:ℚ) else 0) = 255)
      = decide (th < g (y * w + x)) := by
    intro th
    by_cases hc : th < g (y * w + x) <;> simp [hc]
  -- raster bounds of the neighbor indices
  have hmul : (y + 1) * w = y * w + w := by ring
  have hmul2 : (y + 2) * w = y * w + w * 2 := by ring
  have hb1 : y * w + x + 1 < w * h := by
    have := raster_lt w h (x + 1) y hxw1 (by omega)
    omega
  have hb2 : y * w + x + w - 1 < w * h := by
    have := raster_lt w h (x - 1) (y + 1) (by omega) (by omega)
    omega
  have hb3 : y * w + x + w < w * h := by
    have := raster_lt w h x (y + 1) (by omega) (by omega)
    omega
  have hb4 : y * w + x + w + 1 < w * h := by
    have := raster_lt w h (x + 1) (y + 1) hxw1 (by omega)
    omega
  have hb5 : y * w + x + 2 < w * h := by
    have := raster_lt w h (x + 2) y hxw (by omega)
    omega
  have hb6 : y * w + x + w * 2 < w * h := by
    have := raster_lt w h x (y + 2) (by omega) (by omega)
    omega
  refine ⟨?_, ?_, ?_, ?_, ?_, ?_, ?_, ?_, ?_, ?_, ?_, ?_, ?_, ?_, ?_, ?_, ?_⟩
  · intro th
    simp only [ditherStep]
    rw [hmod, hdiv, hq th]
  · intro th
    simp only [ditherStep]
    rw [hmod, hdiv, hq th]
  · rw [hfp]
    rw [if_pos (rfl : y * w + x + 1 = y * w + x + 1),
      if_neg (show ¬y * w + x + 1 = y * w + x + w - 1 from by omega),
      if_neg (show ¬y * w + x + 1 = y * w + x + w from by omega),
      if_neg (show ¬y * w + x + 1 = y * w + x + w + 1 from by omega)]
    ring
  · rw [hfp]
    rw [if_neg (show ¬y * w + x + w - 1 = y * w + x + 1 from by omega),
      if_pos (rfl : y * w + x + w - 1 = y * w + x + w - 1),
      if_neg (show ¬y * w + x + w - 1 = y * w + x + w from by omega),
      if_neg (show ¬y * w + x + w - 1 = y * w + x + w + 1 from by omega)]
    ring
  · rw [hfp]
    rw [if_neg (show ¬y * w + x + w = y * w + x + 1 from by omega),
      if_neg (show ¬y * w + x + w = y * w + x + w - 1 from by omega),
      if_pos (rfl : y * w + x + w = y * w + x + w),
      if_neg (show ¬y * w + x + w = y * w + x + w + 1 from by omega)]
    ring
  · rw [hfp]
    rw [if_neg (show ¬y * w + x + w + 1 = y * w + x + 1 from by omega),
      if_neg (show ¬y * w + x + w + 1 = y * w + x + w - 1 from by omega),
      if_neg (show ¬y * w + x + w + 1 = y * w + x + w from by omega),
      if_pos (rfl : y * w + x + w + 1 = y * w + x + w + 1)]
    ring
  · intro j h1 h2 h3 h4
    rw [hfp]
    rw [if_neg h1, if_neg h2, if_neg h3, if_neg h4]
    ring
  · have hcong : ∀ j ∈ Finset.range (w * h),
        floydDiffuse w h x y e g j - g j =
          (if j = y * w + x + 1 then e * 7 / 16 else 0)
          + ((if j = y * w + x + w - 1 then e * 3 / 16 else 0)
          + ((if j = y * w + x + w then e * 5 / 16 else 0)
          + (if j = y * w + x + w + 1 then e * 1 / 16 else 0))) := by
      intro j _
      rw [hfp j]
      ring
    rw [Finset.sum_congr rfl hcong, Finset.sum_add_distrib,
      Finset.sum_add_distrib, Finset.sum_add_distrib,
      sum_indicator _ _ _ hb1, sum_indicator _ _ _ hb2,
      sum_indicator _ _ _ hb3, sum_indicator _ _ _ hb4]
    ring
  · rw [hap]
    rw [if_pos (rfl : y * w + x + 1 = y * w + x + 1),
      if_neg (show ¬y * w + x + 1 = y * w + x + 2 from by omega),
      if_neg (show ¬y * w + x + 1 = y * w + x + w - 1 from by omega),
      if_neg (show ¬y * w + x + 1 = y * w + x + w from by omega),
      if_neg (show ¬y * w + x + 1 = y * w + x + w + 1 from by omega),
      if_neg (show ¬y * w + x + 1 = y * w + x + w * 2 from by omega)]
    ring
  · rw [hap]
    rw [if_neg (show ¬y * w + x + 2 = y * w + x + 1 from by omega),
      if_pos (rfl : y * w + x + 2 = y * w + x + 2),
      if_neg (show ¬y * w + x + 2 = y * w + x + w - 1 from by omega),
      if_neg (show ¬y * w + x + 2 = y * w + x + w from by omega),
      if_neg (show ¬y * w + x + 2 = y * w + x + w + 1 from by omega),
      if_neg (show ¬y * w + x + 2 = y * w + x + w * 2 from by omega)]
    ring
  · rw [hap]
    rw [if_neg (show ¬y * w + x + w - 1 = y * w + x + 1 from by omega),
      if_neg (show ¬y * w + x + w - 1 = y * w + x + 2 from by omega),
      if_pos (rfl : y * w + x + w - 1 = y * w + x + w - 1),
      if_neg (show ¬y * w + x + w - 1 = y * w + x + w from by omega),
      if_neg (show ¬y * w + x + w - 1 = y * w + x + w + 1 from by omega),
      if_neg (show ¬y * w + x + w - 1 = y * w + x + w * 2 from by omega)]
    ring
  · rw [hap]
    rw [if_neg (show ¬y * w + x + w = y * w + x + 1 from by omega),
      if_neg (show ¬y * w + x + w = y * w + x + 2 from by omega),
      if_neg (show ¬y * w + x + w = y * w + x + w - 1 from by omega),
      if_pos (rfl : y * w + x + w = y * w + x + w),
      if_neg (show ¬y * w + x + w = y * w + x + w + 1 from by omega),
      if_neg (show ¬y * w + x + w = y * w + x + w * 2 from by omega)]
    ring
  · rw [hap]
    rw [if_neg (show ¬y * w + x + w + 1 = y * w + x + 1 from by omega),
      if_neg (show ¬y * w + x + w + 1 = y * w + x + 2 from by omega),
      if_neg (show ¬y * w + x + w + 1 = y * w + x + w - 1 from by omega),
      if_neg (show ¬y * w + x + w + 1 = y * w + x + w from by omega),
      if_pos (rfl : y * w + x + w + 1 = y * w + x + w + 1),
      if_neg (show ¬y * w + x + w + 1 = y * w + x + w * 2 from by omega)]
    ring
  · rw [hap]
    rw [if_neg (show ¬y * w + x + w * 2 = y * w + x + 1 from by omega),
      if_neg (show ¬y * w + x + w * 2 = y * w + x + 2 from by omega),
      if_neg (show ¬y * w + x + w * 2 = y * w + x + w - 1 from by omega),
      if_neg (show ¬y * w + x + w * 2 = y * w + x + w from by omega),
      if_neg (show ¬y * w + x + w * 2 = y * w + x + w + 1 from by omega),
      if_pos (rfl : y * w + x + w * 2 = y * w + x + w * 2)]
    ring
  · intro j h1 h2 h3 h4 h5 h6
    rw [hap]
    rw [if_neg h1, if_neg h2, if_neg h3, if_neg h4, if_neg h5, if_neg h6]
    ring
  · have hcong : ∀ j ∈ Finset.range (w * h),
        atkinsonDiffuse w h x y e g j - g j =
          (if j = y * w + x + 1 then e * (1 / 8) else 0)
          + ((if j = y * w + x + 2 then e * (1 / 8) else 0)
          + ((if j = y * w + x + w - 1 then e * (1 / 8) else 0)
          + ((if j = y * w + x + w then e * (1 / 8) else 0)
          + ((if j = y * w + x + w + 1 then e * (1 / 8) else 0)
          + (if j = y * w + x + w * 2 then e * (1 / 8) else 0))))) := by
      intro j _
      rw [hap j]
      ring
    rw [Finset.sum_congr rfl hcong, Finset.sum_add_distrib,
      Finset.sum_add_distrib, Finset.sum_add_distrib, Finset.sum_add_distrib,
      Finset.sum_add_distrib,
      sum_indicator _ _ _ hb1, sum_indicator _ _ _ hb5,
      sum_indicator _ _ _ hb2, sum_indicator _ _ _ hb3,
      sum_indicator _ _ _ hb4, sum_indicator _ _ _ hb6]
    ring
  · intro x' y' hxs hys
    constructor
    · funext j
      simp only [floydDiffuse, bufAdd]
      rw [if_neg (show ¬(y' + 1 < h ∧ x' + 1 < w) from by omega),
        if_neg (show ¬y' + 1 < h from by omega),
        if_neg (show ¬(y' + 1 < h ∧ 1 ≤ x') from by omega),
        if_neg (show ¬x' + 1 < w from by omega)]
    · funext j
      simp only [atkinsonDiffuse, bufAdd]
      rw [if_neg (show ¬y' + 2 < h from by omega),
        if_neg (show ¬(x' + 1 < w ∧ y' + 1 < h) from by omega),
        if_neg (show ¬y' + 1 < h from by omega),
        if_neg (show ¬(1 ≤ x' ∧ y' + 1 < h) from by omega),
        if_neg (show ¬x' + 2 < w from by omega),
        if_neg (show ¬x' + 1 < w from by omega)]

/-- Witness for C3: on a 5×5 buffer at interior pixel (1,1) with error 16,
Floyd–Steinberg deposits the whole error (sum 16) while Atkinson deposits
three quarters of it (sum 12). -/
theorem dither_error_diffusion_C3_witness :
    (∑ j ∈ Finset.range (5 * 5),
        (floydDiffuse 5 5 1 1 16 (fun _ => (0:ℚ)) j - (fun _ => (0:ℚ)) j)) = 16
    ∧ (∑ j ∈ Finset.range (5 * 5),
        (atkinsonDiffuse 5 5 1 1 16 (fun _ => (0:ℚ)) j - (fun _ => (0:ℚ)) j))
      = 3 / 4 * 16 := by
  obtain ⟨-, -, -, -, -, -, -, h8, -, -, -, -, -, -, -, h16, -⟩ :=
    dither_error_diffusion_C3 5 5 1 1 16 (fun _ => (0:ℚ))
      (by norm_num) (by norm_num) (by norm_num)
  exact ⟨h8, h16⟩

/-! ### Chromatic stage (App.jsx lines 505–523) -/

/-- The `direction` setting of the chromatic stage. -/
inductive ChromaDir
  | horizontal
  | vertical
deriving DecidableEq

/-- The source's clamp `Math.min(limit, Math.max(0, v))` applied to every
sampling coordinate (App.jsx lines 515–516). -/
def clampCoord (limit v : ℤ) : ℤ := min limit (max 0 v)

/-- The chromatic stage (App.jsx lines 505–523): red sampled at the
`+offset` position, green unshifted, blue sampled at the `−offset`
position, coordinates edge-clamped, alpha forced to 255. -/
def chromaticStage (dir : ChromaDir) (off : ℤ) (w h : ℕ)
    (src : ℕ → ℕ → Pixel) : ℕ → ℕ → Pixel :=
  fun x y =>
    let rx0 : ℤ := if dir = ChromaDir.vertical then (x : ℤ) else (x : ℤ) + off
    let ry0 : ℤ := if dir = ChromaDir.vertical then (y : ℤ) + off else (y : ℤ)
    let bx0 : ℤ := if dir = ChromaDir.vertical then (x : ℤ) else (x : ℤ) - off
    let by0 : ℤ := if dir = ChromaDir.vertical then (y : ℤ) - off else (y : ℤ)
    let rx := clampCoord ((w : ℤ) - 1) rx0
    let ry := clampCoord ((h : ℤ) - 1) ry0
    let bx := clampCoord ((w : ℤ) - 1) bx0
    let byv := clampCoord ((h : ℤ) - 1) by0
    ⟨(src rx.toNat ry.toNat).r, (src x y).g, (src bx.toNat byv.toNat).b, 255⟩

lemma clampCoord_self (n : ℕ) (limit : ℤ) (hn : (n : ℤ) ≤ limit) :
    (clampCoord limit (n : ℤ)).toNat = n := by
  unfold clampCoord
  omega

/-- C6. For ChromaticShift with any non-negative offset (including offsets
larger than the buffer): each output pixel's red channel equals the input
red at the clamped `(x+offset, y)` (resp. `(x, y+offset)` vertically),
green equals the input green at `(x, y)`, blue equals the input blue at the
clamped `(x−offset, y)` (resp. `(x, y−offset)`); every sampling coordinate
is clamped into `[0, width−1] × [0, height−1]` (edge clamping, never
negative, never past the last index); and output alpha is 255 everywhere. -/
theorem chromatic_shift_C6 (off : ℤ) (w h : ℕ) (src : ℕ → ℕ → Pixel)
    (x y : ℕ) (hx : x < w) (hy : y < h) (hoff : 0 ≤ off) :
    chromaticStage ChromaDir.horizontal off w h src x y =
        ⟨(src (clampCoord ((w : ℤ) - 1) ((x : ℤ) + off)).toNat y).r,
         (src x y).g,
         (src (clampCoord ((w : ℤ) - 1) ((x : ℤ) - off)).toNat y).b, 255⟩
      ∧ chromaticStage ChromaDir.vertical off w h src x y =
        ⟨(src x (clampCoord ((h : ℤ) - 1) ((y : ℤ) + off)).toNat).r,
         (src x y).g,
         (src x (clampCoord ((h : ℤ) - 1) ((y : ℤ) - off)).toNat).b, 255⟩
      ∧ (∀ v : ℤ, 0 ≤ clampCoord ((w : ℤ) - 1) v
          ∧ clampCoord ((w : ℤ) - 1) v ≤ (w : ℤ) - 1)
      ∧ (∀ v : ℤ, 0 ≤ clampCoord ((h : ℤ) - 1) v
          ∧ clampCoord ((h : ℤ) - 1) v ≤ (h : ℤ) - 1) := by
  refine ⟨?_, ?_, ?_, ?_⟩
  · simp +decide only [chromaticStage, if_true, if_false]
    rw [clampCoord_self y ((h : ℤ) - 1) (by omega)]
  · simp +decide only [chromaticStage, if_true, if_false]
    rw [clampCoord_self x ((w : ℤ) - 1) (by omega)]
  · intro v
    unfold clampCoord
    omega
  · intro v
    unfold clampCoord
    omega

/-- Witness for C6: a 3×2 buffer with offset 100 (larger than either
dimension). -/
theorem chromatic_shift_C6_witness :
    chromaticStage ChromaDir.horizontal 100 3 2
        (fun x y => ⟨x, y, x + y, 7⟩) 1 0 =
        ⟨(((fun x y => (⟨x, y, x + y, 7⟩ : Pixel)))
            (clampCoord ((3 : ℤ) - 1) ((1 : ℤ) + 100)).toNat 0).r,
         (((fun x y => (⟨x, y, x + y, 7⟩ : Pixel))) 1 0).g,
         (((fun x y => (⟨x, y, x + y, 7⟩ : Pixel)))
            (clampCoord ((3 : ℤ) - 1) ((1 : ℤ) - 100)).toNat 0).b, 255⟩
      ∧ chromaticStage ChromaDir.vertical 100 3 2
        (fun x y => ⟨x, y, x + y, 7⟩) 1 0 =
        ⟨(((fun x y => (⟨x, y, x + y, 7⟩ : Pixel))) 1
            (clampCoord ((2 : ℤ) - 1) ((0 : ℤ) + 100)).toNat).r,
         (((fun x y => (⟨x, y, x + y, 7⟩ : Pixel))) 1 0).g,
         (((fun x y => (⟨x, y, x + y, 7⟩ : Pixel))) 1
            (clampCoord ((2 : ℤ) - 1) ((0 : ℤ) - 100)).toNat).b, 255⟩
      ∧ (∀ v : ℤ, 0 ≤ clampCoord ((3 : ℤ) - 1) v
          ∧ clampCoord ((3 : ℤ) - 1) v ≤ (3 : ℤ) - 1)
      ∧ (∀ v : ℤ, 0 ≤ clampCoord ((2 : ℤ) - 1) v
          ∧ clampCoord ((2 : ℤ) - 1) v ≤ (2 : ℤ) - 1) :=
  chromatic_shift_C6 100 3 2 (fun x y => ⟨x, y, x + y, 7⟩) 1 0
    (by norm_num) (by norm_num) (by norm_num)

/-! ### Tone stage, `bw` (App.jsx lines 246–258) -/

/-- The source's `contrastFactor` expression (App.jsx line 247). -/
def contrastFactor (contrast : ℚ) : ℚ :=
  259 * (contrast + 255) / (255 * (259 - contrast))

/-- One pixel of the `bw` stage (App.jsx lines 248–255), translated line by
line: luminance, then `+ brightness`, then the contrast curve, then optional
grain (`noise` stands for the `Math.random() - 0.5` draw of that pixel),
then clamping to `[0, 255]`, then writing the result to all three channels
(alpha not written). -/
def bwPixel (contrast brightness grain noise : ℚ) (p : Pixel) : Pixel :=
  let gray0 := getLuminance p.r p.g p.b
  let gray1 := gray0 + brightness
  let gray2 := contrastFactor contrast * (gray1 - 128) + 128
  let gray3 := if 0 < grain then gray2 + noise * grain else gray2
  let gray4 := min 255 (max 0 gray3)
  ⟨gray4, gray4, gray4, p.a⟩

/-- The `bw` stage over the whole buffer, `noise` giving each raster
index's random draw. -/
def bwStage (contrast brightness grain : ℚ) (noise : ℕ → ℚ)
    (src : ℕ → Pixel) : ℕ → Pixel :=
  fun i => bwPixel contrast brightness grain (noise i) (src i)

/-- C8. For ToneAdjust with grain = 0, every output pixel's R, G and B all
equal `clamp(contrastFactor·((0.2126R + 0.7152G + 0.0722B + brightness) −
128) + 128, 0, 255)` with `contrastFactor = 259·(contrast+255) /
(255·(259−contrast))`, applied in exactly that order (luminance, then
brightness, then contrast curve, then clamp), and alpha is unchanged. -/
theorem tone_adjust_C8 (contrast brightness grain : ℚ) (noise : ℕ → ℚ)
    (src : ℕ → Pixel) (i : ℕ) (hg : grain = 0) :
    bwStage contrast brightness grain noise src i =
      ⟨min 255 (max 0 (259 * (contrast + 255) / (255 * (259 - contrast)) *
          ((2126 / 10000 * (src i).r + 7152 / 10000 * (src i).g
            + 722 / 10000 * (src i).b + brightness) - 128) + 128)),
       min 255 (max 0 (259 * (contrast + 255) / (255 * (259 - contrast)) *
          ((2126 / 10000 * (src i).r + 7152 / 10000 * (src i).g
            + 722 / 10000 * (src i).b + brightness) - 128) + 128)),
       min 255 (max 0 (259 * (contrast + 255) / (255 * (259 - contrast)) *
          ((2126 / 10000 * (src i).r + 7152 / 10000 * (src i).g
            + 722 / 10000 * (src i).b + brightness) - 128) + 128)),
       (src i).a⟩ := by
  subst hg
  simp only [bwStage, bwPixel, contrastFactor, getLuminance,
    lt_self_iff_false, if_false]

/-- Witness for C8: concrete pixel (100, 150, 200, 42) with contrast 20,
brightness 10, grain 0; the stage writes the tone value to R, G, B and
leaves alpha at 42. -/
theorem tone_adjust_C8_witness :
    bwStage 20 10 0 (fun _ => 1 / 3) (fun _ => ⟨100, 150, 200, 42⟩) 0 =
      ⟨min 255 (max 0 (259 * (20 + 255) / (255 * (259 - 20)) *
          ((2126 / 10000 * ((fun _ => (⟨100, 150, 200, 42⟩ : Pixel)) 0).r
            + 7152 / 10000 * ((fun _ => (⟨100, 150, 200, 42⟩ : Pixel)) 0).g
            + 722 / 10000 * ((fun _ => (⟨100, 150, 200, 42⟩ : Pixel)) 0).b
            + 10) - 128) + 128)),
       min 255 (max 0 (259 * (20 + 255) / (255 * (259 - 20)) *
          ((2126 / 10000 * ((fun _ => (⟨100, 150, 200, 42⟩ : Pixel)) 0).r
            + 7152 / 10000 * ((fun _ => (⟨100, 150, 200, 42⟩ : Pixel)) 0).g
            + 722 / 10000 * ((fun _ => (⟨100, 150, 200, 42⟩ : Pixel)) 0).b
            + 10) - 128) + 128)),
       min 255 (max 0 (259 * (20 + 255) / (255 * (259 - 20)) *
          ((2126 / 10000 * ((fun _ => (⟨100, 150, 200, 42⟩ : Pixel)) 0).r
            + 7152 / 10000 * ((fun _ => (⟨100, 150, 200, 42⟩ : Pixel)) 0).g
            + 722 / 10000 * ((fun _ => (⟨100, 150, 200, 42⟩ : Pixel)) 0).b
            + 10) - 128) + 128)),
       ((fun _ => (⟨100, 150, 200, 42⟩ : Pixel)) 0).a⟩ :=
  tone_adjust_C8 20 10 0 (fun _ => 1 / 3) (fun _ => ⟨100, 150, 200, 42⟩) 0 rfl

/-! ### CRT stage (App.jsx lines 526–549)

The stage divides by `maxD = Math.sqrt(cx*cx + cy*cy)` and takes the
per-pixel distance with the same square root.  Square roots are irrational
in general, so the stage is parameterized by the square-root function `sq`;
every theorem below holds for an arbitrary `sq` satisfying the stated
positivity property of the real square root. -/

/-- The CRT stage (App.jsx lines 526–549): vignette factor
`1 − (d/maxD)·(vignette/100)`, multiplied by `1 − scanlineIntensity/100` on
rows whose index is ≡ 0 mod `scanlineThickness`; R, G, B scaled, alpha
untouched. -/
def crtStage (sq : ℚ → ℚ) (vignette scanlineIntensity : ℚ) (thick w h : ℕ)
    (src : ℕ → ℕ → Pixel) : ℕ → ℕ → Pixel :=
  let cx : ℚ := w / 2
  let cy : ℚ := h / 2
  let maxD := sq (cx * cx + cy * cy)
  let vig := vignette / 100
  let scanA := scanlineIntensity / 100
  fun x y =>
    let p := src x y
    let d := sq (((x : ℚ) - cx) * ((x : ℚ) - cx)
      + ((y : ℚ) - cy) * ((y : ℚ) - cy))
    let dim := 1 - d / maxD * vig
    let mult := if y % thick = 0 then dim * (1 - scanA) else dim
    ⟨p.r * mult, p.g * mult, p.b * mult, p.a⟩

lemma lumP_smul (p : Pixel) (m : ℚ) :
    lumP ⟨p.r * m, p.g * m, p.b * m, p.a⟩ = lumP p * m := by
  unfold lumP getLuminance
  ring

/-- The per-pixel multiplier formula of the CRT stage, with the two
occurrences of the scanline factor merged into one trailing factor. -/
lemma crtStage_eq (sq : ℚ → ℚ) (vig scanI : ℚ) (thick w h : ℕ)
    (src : ℕ → ℕ → Pixel) (x y : ℕ) :
    crtStage sq vig scanI thick w h src x y =
      ⟨(src x y).r * ((1 - sq (((x : ℚ) - w / 2) * ((x : ℚ) - w / 2)
            + ((y : ℚ) - h / 2) * ((y : ℚ) - h / 2))
            / sq ((w / 2 : ℚ) * (w / 2) + (h / 2 : ℚ) * (h / 2))
            * (vig / 100)) *
          (if y % thick = 0 then 1 - scanI / 100 else 1)),
       (src x y).g * ((1 - sq (((x : ℚ) - w / 2) * ((x : ℚ) - w / 2)
            + ((y : ℚ) - h / 2) * ((y : ℚ) - h / 2))
            / sq ((w / 2 : ℚ) * (w / 2) + (h / 2 : ℚ) * (h / 2))
            * (vig / 100)) *
          (if y % thick = 0 then 1 - scanI / 100 else 1)),
       (src x y).b * ((1 - sq (((x : ℚ) - w / 2) * ((x : ℚ) - w / 2)
            + ((y : ℚ) - h / 2) * ((y : ℚ) - h / 2))
            / sq ((w / 2 : ℚ) * (w / 2) + (h / 2 : ℚ) * (h / 2))
            * (vig / 100)) *
          (if y % thick = 0 then 1 - scanI / 100 else 1)),
       (src x y).a⟩ := by
  simp only [crtStage]
  by_cases hymod : y % thick = 0
  · simp only [if_pos hymod]
  · simp only [if_neg hymod, mul_one]

/-- Strict decrease of output luminance in the vignette at any pixel whose
center-distance argument is positive, for scanline intensity below 100. -/
lemma crt_mono_at (sq : ℚ → ℚ) (vig₁ vig₂ scanI : ℚ) (thick w h : ℕ)
    (src : ℕ → ℕ → Pixel) (x y : ℕ)
    (hsq : ∀ q : ℚ, 0 < q → 0 < sq q) (hv : vig₁ < vig₂)
    (hscan : scanI < 100)
    (hmaxarg : (0 : ℚ) < (w / 2 : ℚ) * (w / 2) + (h / 2 : ℚ) * (h / 2))
    (harg : (0 : ℚ) < ((x : ℚ) - w / 2) * ((x : ℚ) - w / 2)
        + ((y : ℚ) - h / 2) * ((y : ℚ) - h / 2))
    (hlum : 0 < lumP (src x y)) :
    lumP (crtStage sq vig₂ scanI thick w h src x y) <
      lumP (crtStage sq vig₁ scanI thick w h src x y) := by
  have hmaxD := hsq _ hmaxarg
  have hd := hsq _ harg
  have hr : 0 < sq (((x : ℚ) - w / 2) * ((x : ℚ) - w / 2)
      + ((y : ℚ) - h / 2) * ((y : ℚ) - h / 2))
      / sq ((w / 2 : ℚ) * (w / 2) + (h / 2 : ℚ) * (h / 2)) :=
    div_pos hd hmaxD
  rw [crtStage_eq, crtStage_eq, lumP_smul, lumP_smul]
  by_cases hym : y % thick = 0
  · simp only [if_pos hym]
    have hS : (0 : ℚ) < 1 - scanI / 100 := by linarith
    nlinarith [mul_pos (mul_pos hlum hS) hr, hv]
  · simp only [if_neg hym, mul_one]
    nlinarith [mul_pos hlum hr, hv]

/-- C9 counterexample. The claimed consequence — increasing `vignette`
strictly decreases luminance at the corner pixels whenever they have
nonzero luminance — fails in two ways.  First, when
`scanlineIntensity = 100`: row 0 is a scanline row (0 mod thickness = 0),
its multiplier is zero, so raising the vignette from 0 to 100 leaves the
top-left corner luminance unchanged (0 = 0) on an all-white 2×2 image
whose corner luminance is 255 ≠ 0.  Second, even with
`scanlineIntensity = 0` (< 100) and no scanline on its row: on an
all-white 2×2 image with thickness 2, the bottom-right corner (1,1) is the
image center, its distance is sqrt 0 = 0, its vignette factor is 1 for
every vignette value, and raising the vignette from 0 to 100 leaves its
luminance unchanged (255 = 255 ≠ 0). -/
theorem crt_vignette_C9_counterexample :
    (lumP (crtStage (fun q => q) 100 100 1 2 2
          (fun _ _ => ⟨255, 255, 255, 255⟩) 0 0) =
        lumP (crtStage (fun q => q) 0 100 1 2 2
          (fun _ _ => ⟨255, 255, 255, 255⟩) 0 0)
      ∧ (0 : ℚ) < 100
      ∧ lumP ((fun _ _ => (⟨255, 255, 255, 255⟩ : Pixel)) (0 : ℕ) (0 : ℕ)) ≠ 0)
    ∧ (lumP (crtStage (fun q => q) 100 0 2 2 2
          (fun _ _ => ⟨255, 255, 255, 255⟩) 1 1) =
        lumP (crtStage (fun q => q) 0 0 2 2 2
          (fun _ _ => ⟨255, 255, 255, 255⟩) 1 1)
      ∧ (0 : ℚ) < 100
      ∧ lumP ((fun _ _ => (⟨255, 255, 255, 255⟩ : Pixel)) (1 : ℕ) (1 : ℕ)) ≠ 0) := by
  refine ⟨⟨?_, by norm_num, ?_⟩, ⟨?_, by norm_num, ?_⟩⟩
  · simp only [crtStage, lumP, getLuminance]
    norm_num
  · unfold lumP getLuminance
    norm_num
  · simp only [crtStage, lumP, getLuminance]
    norm_num
  · unfold lumP getLuminance
    norm_num

/-- C9 (amended). Per pixel the CRT stage multiplies R, G and B by
`1 − (d/maxD)·(vignette/100)`, additionally multiplied by
`(1 − scanlineIntensity/100)` when `y mod scanlineThickness = 0`, and
leaves alpha untouched.  Consequently — provided `scanlineIntensity < 100`
(at 100 every scanline row, including row 0, is forced to zero regardless
of vignette) — for any square-root function positive on positive inputs,
increasing `vignette` strictly decreases the output luminance at each of
the four corner pixels whose input luminance is positive; for the
bottom-right corner this additionally requires the buffer not to be
exactly 2×2, where that corner coincides with the image center (distance
0) and is unaffected by the vignette. -/
theorem crt_vignette_C9 (sq : ℚ → ℚ) (vig₁ vig₂ scanI : ℚ)
    (thick w h : ℕ) (src : ℕ → ℕ → Pixel)
    (hsq : ∀ q : ℚ, 0 < q → 0 < sq q) (hth : 0 < thick)
    (hw : 0 < w) (hh : 0 < h) (hv : vig₁ < vig₂) (hscan : scanI < 100) :
    (∀ (vig : ℚ) (x y : ℕ), crtStage sq vig scanI thick w h src x y =
        ⟨(src x y).r * ((1 - sq (((x : ℚ) - w / 2) * ((x : ℚ) - w / 2)
              + ((y : ℚ) - h / 2) * ((y : ℚ) - h / 2))
              / sq ((w / 2 : ℚ) * (w / 2) + (h / 2 : ℚ) * (h / 2))
              * (vig / 100)) *
            (if y % thick = 0 then 1 - scanI / 100 else 1)),
         (src x y).g * ((1 - sq (((x : ℚ) - w / 2) * ((x : ℚ) - w / 2)
              + ((y : ℚ) - h / 2) * ((y : ℚ) - h / 2))
              / sq ((w / 2 : ℚ) * (w / 2) + (h / 2 : ℚ) * (h / 2))
              * (vig / 100)) *
            (if y % thick = 0 then 1 - scanI / 100 else 1)),
         (src x y).b * ((1 - sq (((x : ℚ) - w / 2) * ((x : ℚ) - w / 2)
              + ((y : ℚ) - h / 2) * ((y : ℚ) - h / 2))
              / sq ((w / 2 : ℚ) * (w / 2) + (h / 2 : ℚ) * (h / 2))
              * (vig / 100)) *
            (if y % thick = 0 then 1 - scanI / 100 else 1)),
         (src x y).a⟩)
      ∧ (0 < lumP (src 0 0) →
          lumP (crtStage sq vig₂ scanI thick w h src 0 0) <
            lumP (crtStage sq vig₁ scanI thick w h src 0 0))
      ∧ (0 < lumP (src (w - 1) 0) →
          lumP (crtStage sq vig₂ scanI thick w h src (w - 1) 0) <
            lumP (crtStage sq vig₁ scanI thick w h src (w - 1) 0))
      ∧ (0 < lumP (src 0 (h - 1)) →
          lumP (crtStage sq vig₂ scanI thick w h src 0 (h - 1)) <
            lumP (crtStage sq vig₁ scanI thick w h src 0 (h - 1)))
      ∧ (¬(w = 2 ∧ h = 2) → 0 < lumP (src (w - 1) (h - 1)) →
          lumP (crtStage sq vig₂ scanI thick w h src (w - 1) (h - 1)) <
            lumP (crtStage sq vig₁ scanI thick w h src (w - 1) (h - 1))) := by
  have hw2 : (0 : ℚ) < (w : ℚ) / 2 := by
    have hcast : (0 : ℚ) < (w : ℚ) := by exact_mod_cast hw
    linarith
  have hh2 : (0 : ℚ) < (h : ℚ) / 2 := by
    have hcast : (0 : ℚ) < (h : ℚ) := by exact_mod_cast hh
    linarith
  have hmaxarg : (0 : ℚ) < (w / 2 : ℚ) * (w / 2) + (h / 2 : ℚ) * (h / 2) := by
    positivity
  have hcw : ((w - 1 : ℕ) : ℚ) = (w : ℚ) - 1 := by
    rw [Nat.cast_sub hw, Nat.cast_one]
  have hch : ((h - 1 : ℕ) : ℚ) = (h : ℚ) - 1 := by
    rw [Nat.cast_sub hh, Nat.cast_one]
  refine ⟨fun vig x y => crtStage_eq sq vig scanI thick w h src x y,
    ?_, ?_, ?_, ?_⟩
  · intro hlum
    refine crt_mono_at sq vig₁ vig₂ scanI thick w h src 0 0 hsq hv hscan
      hmaxarg ?_ hlum
    push_cast
    nlinarith [mul_pos hw2 hw2, mul_self_nonneg ((0 : ℚ) - (h : ℚ) / 2)]
  · intro hlum
    refine crt_mono_at sq vig₁ vig₂ scanI thick w h src (w - 1) 0 hsq hv hscan
      hmaxarg ?_ hlum
    rw [hcw]
    push_cast
    nlinarith [mul_pos hh2 hh2,
      mul_self_nonneg ((w : ℚ) - 1 - (w : ℚ) / 2)]
  · intro hlum
    refine crt_mono_at sq vig₁ vig₂ scanI thick w h src 0 (h - 1) hsq hv hscan
      hmaxarg ?_ hlum
    rw [hch]
    push_cast
    nlinarith [mul_pos hw2 hw2,
      mul_self_nonneg ((h : ℚ) - 1 - (h : ℚ) / 2)]
  · intro hne hlum
    refine crt_mono_at sq vig₁ vig₂ scanI thick w h src (w - 1) (h - 1) hsq hv
      hscan hmaxarg ?_ hlum
    rw [hcw, hch]
    rcases not_and_or.mp hne with hw2ne | hh2ne
    · have hq2 : (w : ℚ) - 1 - (w : ℚ) / 2 ≠ 0 := by
        intro h0
        apply hw2ne
        have hwq : (w : ℚ) = 2 := by linarith
        exact_mod_cast hwq
      nlinarith [mul_self_pos.mpr hq2,
        mul_self_nonneg ((h : ℚ) - 1 - (h : ℚ) / 2)]
    · have hq2 : (h : ℚ) - 1 - (h : ℚ) / 2 ≠ 0 := by
        intro h0
        apply hh2ne
        have hhq : (h : ℚ) = 2 := by linarith
        exact_mod_cast hhq
      nlinarith [mul_self_pos.mpr hq2,
        mul_self_nonneg ((w : ℚ) - 1 - (w : ℚ) / 2)]

/-- Witness for C9: on an all-white 4×4 image with scanline intensity 50,
raising the vignette from 10 to 20 strictly darkens all four corners. -/
theorem crt_vignette_C9_witness :
    (lumP (crtStage (fun q => q) 20 50 2 4 4
          (fun _ _ => ⟨255, 255, 255, 255⟩) 0 0) <
        lumP (crtStage (fun q => q) 10 50 2 4 4
          (fun _ _ => ⟨255, 255, 255, 255⟩) 0 0))
      ∧ (lumP (crtStage (fun q => q) 20 50 2 4 4
          (fun _ _ => ⟨255, 255, 255, 255⟩) (4 - 1) 0) <
        lumP (crtStage (fun q => q) 10 50 2 4 4
          (fun _ _ => ⟨255, 255, 255, 255⟩) (4 - 1) 0))
      ∧ (lumP (crtStage (fun q => q) 20 50 2 4 4
          (fun _ _ => ⟨255, 255, 255, 255⟩) 0 (4 - 1)) <
        lumP (crtStage (fun q => q) 10 50 2 4 4
          (fun _ _ => ⟨255, 255, 255, 255⟩) 0 (4 - 1)))
      ∧ (lumP (crtStage (fun q => q) 20 50 2 4 4
          (fun _ _ => ⟨255, 255, 255, 255⟩) (4 - 1) (4 - 1)) <
        lumP (crtStage (fun q => q) 10 50 2 4 4
          (fun _ _ => ⟨255, 255, 255, 255⟩) (4 - 1) (4 - 1))) := by
  have hlum : ∀ x y : ℕ,
      (0 : ℚ) < lumP ((fun _ _ => (⟨255, 255, 255, 255⟩ : Pixel)) x y) := by
    intro x y
    unfold lumP getLuminance
    norm_num
  obtain ⟨-, h00, hw0, h0h, hwh⟩ :=
    crt_vignette_C9 (fun q => q) 10 20 50 2 4 4
      (fun _ _ => ⟨255, 255, 255, 255⟩) (fun _ hq => hq) (by norm_num)
      (by norm_num) (by norm_num) (by norm_num) (by norm_num)
  exact ⟨h00 (hlum 0 0), hw0 (hlum (4 - 1) 0), h0h (hlum 0 (4 - 1)),
    hwh (by norm_num) (hlum (4 - 1) (4 - 1))⟩

/-! ### Pixel-sort stage (App.jsx lines 261–316)

The source walks each row (or column, same routine on column pixel lists),
finds maximal runs of pixels with luminance strictly above the threshold,
sorts each run in place with `span.sort((a, b) => lum(a) - lum(b))` —
ECMAScript's `Array.prototype.sort` is stable and, with this consistent
numeric comparator, produces the ascending-by-luminance stable permutation,
embedded here as insertion sort `isortLum` — then writes back only the R,
G, B channels (lines 284–287 and 309–312), leaving the alpha plane as it
was. -/

/-- Stable insertion of a pixel into a list by luminance: the pixel passes
over strictly smaller luminances and stops before the first
greater-or-equal one, so existing equal-luminance pixels stay after it. -/
def insertLum (p : Pixel) : List Pixel → List Pixel
  | [] => [p]
  | q :: l => if lumP q < lumP p then q :: insertLum p l else p :: q :: l

/-- Stable ascending-by-luminance sort: the behavior ECMAScript specifies
for `sort((a, b) => lum(a) - lum(b))` on a span. -/
def isortLum : List Pixel → List Pixel
  | [] => []
  | p :: l => insertLum p (isortLum l)

/-- The run predicate of the scan loops: luminance strictly above the
threshold (`lum > thresh`, lines 275 and 277). -/
def runPred (th : ℚ) (q : Pixel) : Bool := decide (th < lumP q)

lemma length_dropWhile_le (p : Pixel → Bool) (l : List Pixel) :
    (l.dropWhile p).length ≤ l.length :=
  (List.dropWhile_sublist p).length_le

/-- One line (row or column) of the pixel-sort scan (lines 272–283): find
each maximal contiguous run of above-threshold pixels, sort it in place,
continue after it; pixels outside runs pass through. -/
def processRow (th : ℚ) : List Pixel → List Pixel
  | [] => []
  | p :: rest =>
    if th < lumP p then
      isortLum (p :: rest.takeWhile (runPred th))
        ++ processRow th (rest.dropWhile (runPred th))
    else p :: processRow th rest
termination_by l => l.length
decreasing_by
  · simp only [List.length_cons]
    exact Nat.lt_succ_of_le (length_dropWhile_le _ _)
  · simp only [List.length_cons]
    exact Nat.lt_succ_self _

/-- The per-line write-back (lines 284–287 / 309–312): R, G, B come from
the processed line, alpha stays from the original line. -/
def sortRowStage (th : ℚ) (row : List Pixel) : List Pixel :=
  List.zipWith (fun o n => ⟨n.r, n.g, n.b, o.a⟩) row (processRow th row)

/-- The pixel-sort stage in horizontal mode: each row processed
independently (runs cannot cross row boundaries by construction). -/
def sortStageH (th : ℚ) (rows : List (List Pixel)) : List (List Pixel) :=
  rows.map (sortRowStage th)

lemma insertLum_perm (p : Pixel) (l : List Pixel) :
    (insertLum p l).Perm (p :: l) := by
  induction l with
  | nil => exact List.Perm.refl _
  | cons q l ih =>
    unfold insertLum
    by_cases hc : lumP q < lumP p
    · rw [if_pos hc]
      exact (ih.cons q).trans (List.Perm.swap p q l)
    · rw [if_neg hc]

lemma isortLum_perm (l : List Pixel) : (isortLum l).Perm l := by
  induction l with
  | nil => exact List.Perm.refl _
  | cons p l ih => exact (insertLum_perm p (isortLum l)).trans (ih.cons p)

lemma insertLum_sorted (p : Pixel) (l : List Pixel)
    (hl : l.Pairwise (fun a b => lumP a ≤ lumP b)) :
    (insertLum p l).Pairwise (fun a b => lumP a ≤ lumP b) := by
  induction l with
  | nil => simp [insertLum]
  | cons q l ih =>
    rcases List.pairwise_cons.mp hl with ⟨hq, hl'⟩
    unfold insertLum
    by_cases hc : lumP q < lumP p
    · rw [if_pos hc]
      refine List.pairwise_cons.mpr ⟨?_, ih hl'⟩
      intro b hb
      rcases List.mem_cons.mp ((insertLum_perm p l).subset hb) with rfl | hb
      · exact le_of_lt hc
      · exact hq b hb
    · rw [if_neg hc]
      refine List.pairwise_cons.mpr ⟨?_, hl⟩
      intro b hb
      rcases List.mem_cons.mp hb with rfl | hb
      · exact le_of_not_lt hc
      · exact le_trans (le_of_not_lt hc) (hq b hb)

lemma isortLum_sorted (l : List Pixel) :
    (isortLum l).Pairwise (fun a b => lumP a ≤ lumP b) := by
  induction l with
  | nil => simp [isortLum]
  | cons p l ih => exact insertLum_sorted p (isortLum l) ih

lemma insertLum_filter (p : Pixel) (l : List Pixel) (k : ℚ) :
    (insertLum p l).filter (fun q => decide (lumP q = k)) =
      if lumP p = k then p :: l.filter (fun q => decide (lumP q = k))
      else l.filter (fun q => decide (lumP q = k)) := by
  induction l with
  | nil =>
    by_cases hpk : lumP p = k <;> simp [insertLum, List.filter_cons, hpk]
  | cons q l ih =>
    unfold insertLum
    by_cases hc : lumP q < lumP p
    · rw [if_pos hc]
      by_cases hpk : lumP p = k
      · have hqk : ¬ lumP q = k := by rw [← hpk]; exact ne_of_lt hc
        simp [List.filter_cons, ih, hpk, hqk]
      · simp [List.filter_cons, ih, hpk]
    · rw [if_neg hc]
      by_cases hpk : lumP p = k
      · simp [List.filter_cons, hpk]
      · simp [List.filter_cons, hpk]

lemma isortLum_filter (l : List Pixel) (k : ℚ) :
    (isortLum l).filter (fun q => decide (lumP q = k)) =
      l.filter (fun q => decide (lumP q = k)) := by
  induction l with
  | nil => rfl
  | cons p l ih =>
    show (insertLum p (isortLum l)).filter _ = _
    rw [insertLum_filter, List.filter_cons]
    by_cases hpk : lumP p = k
    · rw [if_pos hpk, if_pos (by simpa using hpk), ih]
    · rw [if_neg hpk, if_neg (by simpa using hpk), ih]

lemma takeWhile_append_all (p : Pixel → Bool) (xs ys : List Pixel)
    (h : ∀ x ∈ xs, p x = true) :
    (xs ++ ys).takeWhile p = xs ++ ys.takeWhile p := by
  induction xs with
  | nil => simp
  | cons a xs ih =>
    rw [List.cons_append, List.takeWhile_cons, if_pos (h a (by simp)),
      ih (fun x hx => h x (by simp [hx]))]
    rfl

lemma dropWhile_append_all (p : Pixel → Bool) (xs ys : List Pixel)
    (h : ∀ x ∈ xs, p x = true) :
    (xs ++ ys).dropWhile p = ys.dropWhile p := by
  induction xs with
  | nil => simp
  | cons a xs ih =>
    rw [List.cons_append, List.dropWhile_cons, if_pos (h a (by simp))]
    exact ih (fun x hx => h x (by simp [hx]))

lemma takeWhile_append_stop (p : Pixel → Bool) (xs ys : List Pixel)
    (h : ∃ x ∈ xs, p x = false) :
    (xs ++ ys).takeWhile p = xs.takeWhile p := by
  induction xs with
  | nil =>
    obtain ⟨x, hx, -⟩ := h
    simp at hx
  | cons a xs ih =>
    by_cases hpa : p a = true
    · rw [List.cons_append, List.takeWhile_cons, if_pos hpa,
        List.takeWhile_cons, if_pos hpa]
      obtain ⟨x, hx, hfx⟩ := h
      rcases List.mem_cons.mp hx with rfl | hx
      · rw [hpa] at hfx; cases hfx
      · rw [ih ⟨x, hx, hfx⟩]
    · rw [List.cons_append, List.takeWhile_cons,
        if_neg (by simpa using hpa), List.takeWhile_cons,
        if_neg (by simpa using hpa)]

lemma dropWhile_append_stop (p : Pixel → Bool) (xs ys : List Pixel)
    (h : ∃ x ∈ xs, p x = false) :
    (xs ++ ys).dropWhile p = xs.dropWhile p ++ ys := by
  induction xs with
  | nil =>
    obtain ⟨x, hx, -⟩ := h
    simp at hx
  | cons a xs ih =>
    by_cases hpa : p a = true
    · rw [List.cons_append, List.dropWhile_cons, if_pos hpa,
        List.dropWhile_cons, if_pos hpa]
      obtain ⟨x, hx, hfx⟩ := h
      rcases List.mem_cons.mp hx with rfl | hx
      · rw [hpa] at hfx; cases hfx
      · exact ih ⟨x, hx, hfx⟩
    · rw [List.cons_append, List.dropWhile_cons,
        if_neg (by simpa using hpa), List.dropWhile_cons,
        if_neg (by simpa using hpa), List.cons_append]

lemma mem_of_getLast_some :
    ∀ (l : List Pixel) (a : Pixel), l.getLast? = some a → a ∈ l := by
  intro l
  induction l with
  | nil => intro a h; simp at h
  | cons b l ih =>
    intro a h
    cases l with
    | nil =>
      rw [List.getLast?_singleton] at h
      simp [Option.some_inj.mp h]
    | cons c l' =>
      rw [List.getLast?_cons_cons] at h
      exact List.mem_cons_of_mem b (ih a h)

lemma getLast_dropWhile (p : Pixel → Bool) :
    ∀ (l : List Pixel), l.dropWhile p ≠ [] →
      (l.dropWhile p).getLast? = l.getLast? := by
  intro l
  induction l with
  | nil => intro h; simp at h
  | cons a l ih =>
    intro h
    by_cases hpa : p a = true
    · rw [List.dropWhile_cons, if_pos hpa] at h ⊢
      have hlne : l ≠ [] := by
        rintro rfl
        simp at h
      rw [ih h]
      cases l with
      | nil => exact absurd rfl hlne
      | cons b l' => rw [List.getLast?_cons_cons]
    · rw [List.dropWhile_cons, if_neg (by simpa using hpa)]

lemma processRow_nil (th : ℚ) : processRow th [] = [] := by
  simp [processRow]

lemma processRow_all_low (th : ℚ) (l : List Pixel)
    (h : ∀ p ∈ l, lumP p ≤ th) : processRow th l = l := by
  induction l with
  | nil => exact processRow_nil th
  | cons p l ih =>
    rw [processRow, if_neg (not_lt.mpr (h p (by simp)))]
    rw [ih (fun q hq => h q (by simp [hq]))]

lemma processRow_run_append (th : ℚ) (run post : List Pixel)
    (hrun : ∀ q ∈ run, th < lumP q)
    (hpost : ∀ q, post.head? = some q → lumP q ≤ th) :
    processRow th (run ++ post) = isortLum run ++ processRow th post := by
  cases run with
  | nil => simp [isortLum]
  | cons p run' =>
    have hp : th < lumP p := hrun p (by simp)
    have hr' : ∀ q ∈ run', runPred th q = true := fun q hq => by
      simp only [runPred, decide_eq_true_eq]
      exact hrun q (by simp [hq])
    have hpostTW : post.takeWhile (runPred th) = [] := by
      cases post with
      | nil => rfl
      | cons q post' =>
        have hq := hpost q rfl
        rw [List.takeWhile_cons,
          if_neg (by simp only [runPred, decide_eq_true_eq]; exact not_lt.mpr hq)]
    have hpostDW : post.dropWhile (runPred th) = post := by
      cases post with
      | nil => rfl
      | cons q post' =>
        have hq := hpost q rfl
        rw [List.dropWhile_cons,
          if_neg (by simp only [runPred, decide_eq_true_eq]; exact not_lt.mpr hq)]
    rw [List.cons_append, processRow, if_pos hp,
      takeWhile_append_all _ _ _ hr', dropWhile_append_all _ _ _ hr',
      hpostTW, hpostDW, List.append_nil]

lemma processRow_append_aux (th : ℚ) :
    ∀ (n : ℕ) (pre rest : List Pixel), pre.length ≤ n →
      (∀ q, pre.getLast? = some q → lumP q ≤ th) →
      processRow th (pre ++ rest) = processRow th pre ++ processRow th rest := by
  intro n
  induction n with
  | zero =>
    intro pre rest hlen _
    rw [List.length_eq_zero.mp (Nat.le_zero.mp hlen)]
    simp [processRow_nil]
  | succ n ih =>
    intro pre rest hlen hlast
    cases pre with
    | nil => simp [processRow_nil]
    | cons a pre' =>
      have hlast' : ∀ q, pre'.getLast? = some q → lumP q ≤ th := by
        intro q hq
        apply hlast
        cases pre' with
        | nil => simp at hq
        | cons b l => rw [List.getLast?_cons_cons]; exact hq
      by_cases ha : th < lumP a
      · have hpre' : pre' ≠ [] := by
          rintro rfl
          have := hlast a (List.getLast?_singleton a)
          linarith
        obtain ⟨q, hq⟩ : ∃ q, pre'.getLast? = some q := by
          cases hq : pre'.getLast? with
          | none => exact absurd (List.getLast?_eq_none_iff.mp hq) hpre'
          | some q => exact ⟨q, rfl⟩
        have hqle : lumP q ≤ th := hlast' q hq
        have hqmem : q ∈ pre' := mem_of_getLast_some pre' q hq
        have hqpred : runPred th q = false := by
          simp only [runPred, decide_eq_false_iff_not]
          exact not_lt.mpr hqle
        have hfail : ∃ x ∈ pre', runPred th x = false := ⟨q, hqmem, hqpred⟩
        have hDWne : pre'.dropWhile (runPred th) ≠ [] := by
          intro hdw
          obtain ⟨x, hx, hfx⟩ := hfail
          have := (List.dropWhile_eq_nil_iff).mp hdw x hx
          rw [hfx] at this
          cases this
        rw [List.cons_append, processRow, if_pos ha,
          takeWhile_append_stop _ _ _ hfail, dropWhile_append_stop _ _ _ hfail,
          ih (pre'.dropWhile (runPred th)) rest
            (by have := length_dropWhile_le (runPred th) pre'
                simp only [List.length_cons] at hlen
                omega)
            (by intro q' hq'
                rw [getLast_dropWhile _ _ hDWne] at hq'
                exact hlast' q' hq'),
          processRow, if_pos ha, List.append_assoc]
      · rw [List.cons_append, processRow, if_neg ha,
          ih pre' rest (by simp only [List.length_cons] at hlen; omega) hlast',
          processRow, if_neg ha, List.cons_append]

lemma processRow_perm_aux (th : ℚ) :
    ∀ (n : ℕ) (l : List Pixel), l.length ≤ n → (processRow th l).Perm l := by
  intro n
  induction n with
  | zero =>
    intro l hl
    rw [List.length_eq_zero.mp (Nat.le_zero.mp hl), processRow_nil]
  | succ n ih =>
    intro l hl
    cases l with
    | nil => rw [processRow_nil]
    | cons p rest =>
      by_cases hp : th < lumP p
      · rw [processRow, if_pos hp]
        have h1 := isortLum_perm (p :: rest.takeWhile (runPred th))
        have h2 : (processRow th (rest.dropWhile (runPred th))).Perm
            (rest.dropWhile (runPred th)) := by
          refine ih _ ?_
          have := length_dropWhile_le (runPred th) rest
          simp only [List.length_cons] at hl
          omega
        have h3 := h1.append h2
        refine h3.trans ?_
        rw [List.cons_append, List.takeWhile_append_dropWhile]
      · rw [processRow, if_neg hp]
        refine List.Perm.cons p ?_
        refine ih rest ?_
        simp only [List.length_cons] at hl
        omega

lemma processRow_perm (th : ℚ) (l : List Pixel) : (processRow th l).Perm l :=
  processRow_perm_aux th l.length l le_rfl

lemma processRow_length (th : ℚ) (l : List Pixel) :
    (processRow th l).length = l.length :=
  (processRow_perm th l).length_eq

/-- C4. For PixelSort in horizontal mode, on any row split as
`pre ++ run ++ post` where `run` is a maximal contiguous run of pixels of
luminance strictly above the threshold (maximality: `pre` ends, and `post`
begins, at or below the threshold): the run is replaced by its stable
ascending-by-luminance sort — a permutation of the run that is
non-decreasing in luminance, with equal-luminance pixels keeping their
original relative order — while the rest of the row is processed
independently; any all-at-or-below-threshold stretch (pixels outside every
run) is left bit-identical; and a run of length 1 is left unchanged.  Runs
cannot cross row boundaries since the stage processes rows independently
(`sortStageH` maps the per-row routine over the rows). -/
theorem pixel_sort_C4 (th : ℚ) (pre run post : List Pixel)
    (hrun : ∀ q ∈ run, th < lumP q)
    (hpre : ∀ q, pre.getLast? = some q → lumP q ≤ th)
    (hpost : ∀ q, post.head? = some q → lumP q ≤ th) :
    processRow th (pre ++ run ++ post)
        = processRow th pre ++ isortLum run ++ processRow th post
      ∧ (isortLum run).Perm run
      ∧ (isortLum run).Pairwise (fun a b => lumP a ≤ lumP b)
      ∧ (∀ k : ℚ, (isortLum run).filter (fun q => decide (lumP q = k))
          = run.filter (fun q => decide (lumP q = k)))
      ∧ (∀ l : List Pixel, (∀ p ∈ l, lumP p ≤ th) → processRow th l = l)
      ∧ (∀ p : Pixel, isortLum [p] = [p]) := by
  refine ⟨?_, isortLum_perm run, isortLum_sorted run,
    fun k => isortLum_filter run k,
    fun l h => processRow_all_low th l h, fun p => rfl⟩
  rw [List.append_assoc,
    processRow_append_aux th pre.length pre (run ++ post) le_rfl hpre,
    processRow_run_append th run post hrun hpost, List.append_assoc]

/-- Witness for C4: the spec's 2×1 end-to-end scenario — luminances 200 and
10 with threshold 50 form a single run of length 1 followed by a
below-threshold pixel, and the stage leaves the row unchanged. -/
theorem pixel_sort_C4_witness :
    processRow 50 ([] ++ [(⟨200, 200, 200, 255⟩ : Pixel)] ++ [⟨10, 10, 10, 255⟩])
        = processRow 50 [] ++ isortLum [(⟨200, 200, 200, 255⟩ : Pixel)]
          ++ processRow 50 [⟨10, 10, 10, 255⟩]
      ∧ sortRowStage 50 [(⟨200, 200, 200, 255⟩ : Pixel), ⟨10, 10, 10, 255⟩]
        = [(⟨200, 200, 200, 255⟩ : Pixel), ⟨10, 10, 10, 255⟩] := by
  have hlum200 : (50 : ℚ) < lumP ⟨200, 200, 200, 255⟩ := by
    unfold lumP getLuminance; norm_num
  have hlum10 : lumP (⟨10, 10, 10, 255⟩ : Pixel) ≤ 50 := by
    unfold lumP getLuminance; norm_num
  obtain ⟨h1, -, -, -, h5, -⟩ :=
    pixel_sort_C4 50 [] [(⟨200, 200, 200, 255⟩ : Pixel)] [⟨10, 10, 10, 255⟩]
      (by intro q hq
          rcases List.mem_singleton.mp hq with rfl
          exact hlum200)
      (by intro q hq; simp at hq)
      (by intro q hq
          simp only [List.head?_cons, Option.some_inj] at hq
          rw [← hq]
          exact hlum10)
  have hrow : processRow 50 [(⟨200, 200, 200, 255⟩ : Pixel), ⟨10, 10, 10, 255⟩]
      = [(⟨200, 200, 200, 255⟩ : Pixel), ⟨10, 10, 10, 255⟩] := by
    have h5' : processRow 50 [(⟨10, 10, 10, 255⟩ : Pixel)]
        = [(⟨10, 10, 10, 255⟩ : Pixel)] := by
      refine h5 _ ?_
      intro p hp
      rcases List.mem_singleton.mp hp with rfl
      exact hlum10
    simpa [processRow_nil, isortLum, insertLum, h5'] using h1
  constructor
  · exact h1
  · unfold sortRowStage
    rw [hrow]
    rfl

lemma getD_map_sortRow (th : ℚ) (rows : List (List Pixel)) (r : ℕ) :
    (rows.map (sortRowStage th)).getD r [] = sortRowStage th (rows.getD r []) := by
  induction rows generalizing r with
  | nil =>
    cases r <;> simp [sortRowStage, processRow_nil]
  | cons row rows ih =>
    cases r with
    | zero => simp
    | succ r => simpa using ih r

lemma sortZip_alpha :
    ∀ (l₁ l₂ : List Pixel), l₁.length = l₂.length → ∀ x : ℕ,
      ((List.zipWith (fun o n => (⟨n.r, n.g, n.b, o.a⟩ : Pixel)) l₁ l₂).getD
          x default).a
        = (l₁.getD x default).a := by
  intro l₁
  induction l₁ with
  | nil =>
    intro l₂ h x
    simp
  | cons o l₁ ih =>
    intro l₂ h x
    cases l₂ with
    | nil => simp at h
    | cons n l₂ =>
      cases x with
      | zero => simp
      | succ x =>
        simp only [List.zipWith_cons_cons, List.getD_cons_succ]
        exact ih l₂ (by simpa using h) x

lemma zipWith_map_rgb :
    ∀ (l₁ l₂ : List Pixel), l₁.length = l₂.length →
      (List.zipWith (fun o n => (⟨n.r, n.g, n.b, o.a⟩ : Pixel)) l₁ l₂).map
          (fun p => (p.r, p.g, p.b))
        = l₂.map (fun p => (p.r, p.g, p.b)) := by
  intro l₁
  induction l₁ with
  | nil =>
    intro l₂ h
    cases l₂ with
    | nil => rfl
    | cons n l₂ => simp at h
  | cons o l₁ ih =>
    intro l₂ h
    cases l₂ with
    | nil => simp at h
    | cons n l₂ =>
      simp only [List.zipWith_cons_cons, List.map_cons]
      rw [ih l₂ (by simpa using h)]

/-- C10. PixelSort leaves the alpha channel at every pixel position
bit-identical to the input, even inside sorted runs: the write-back of the
stage takes R, G, B from the processed line and never writes the alpha
plane, so the per-position alpha of the output equals that of the input,
while the R, G, B triples of a line are exactly those of the processed
(run-sorted) line — a permutation of the input line's triples.  A pixel
moved by sorting therefore does not carry its alpha value with it.  (The
vertical mode applies the same per-line routine to column lists.) -/
theorem pixel_sort_alpha_C10 (th : ℚ) (rows : List (List Pixel)) (r x : ℕ) :
    (((sortStageH th rows).getD r []).getD x default).a
        = ((rows.getD r []).getD x default).a
      ∧ ∀ row : List Pixel,
          (sortRowStage th row).map (fun p => (p.r, p.g, p.b))
              = (processRow th row).map (fun p => (p.r, p.g, p.b))
            ∧ ((sortRowStage th row).map (fun p => (p.r, p.g, p.b))).Perm
                (row.map (fun p => (p.r, p.g, p.b))) := by
  constructor
  · rw [show sortStageH th rows = rows.map (sortRowStage th) from rfl,
      getD_map_sortRow]
    exact sortZip_alpha _ _ (processRow_length th _).symm x
  · intro row
    have h1 := zipWith_map_rgb row (processRow th row)
      (processRow_length th row).symm
    refine ⟨h1, ?_⟩
    rw [show sortRowStage th row =
      List.zipWith (fun o n => (⟨n.r, n.g, n.b, o.a⟩ : Pixel)) row
        (processRow th row) from rfl, h1]
    exact (processRow_perm th row).map _

end GlitchStudio
